import Mathlib

set_option maxRecDepth 40000

/-!
# Verification of the IoT DPoS blockchain core (Merkle commitment, Block, DPoS engine)

Shallow embedding of the Python sources:
* `src/utils/merkle_tree.py`  (class `MerkleTree`)
* `src/consensus/block.py`    (dataclass `Block`)
* `src/consensus/dpos.py`     (class `DPoS`)
* `src/main.py`               (`BlockchainNode._process_transactions_periodically`)

Conventions of the embedding:
* Python `float` values (timestamps, stakes, thresholds, block time) are modelled as `ℚ`.
* `time.time()` is modelled by an explicit `now : ℚ` parameter.
* Python `dict` values are modelled as association lists preserving insertion order.
* Fallible Python code (uncaught exceptions) is modelled with `Except PyErr`.
* `hashlib.sha256(s.encode()).hexdigest()` is implemented bit-faithfully below
  (`sha256Hex`), operating on the UTF-8 bytes of the string.
* While-loops that shrink their state are written with an explicit fuel argument that
  bounds the number of iterations; callers pass a fuel that provably suffices, so the
  embedded function agrees with the Python loop.
-/

/-! ## SHA-256 (hashlib.sha256(...).hexdigest()) -/

/-- Truncation to a 32-bit word. -/
def w32 (n : Nat) : Nat := n % 4294967296

/-- Right rotation of a 32-bit word. -/
def rotr (n x : Nat) : Nat := w32 ((x >>> n) ||| (x <<< (32 - n)))

def shaCh (x y z : Nat) : Nat := (x &&& y) ^^^ ((x ^^^ 4294967295) &&& z)

def shaMaj (x y z : Nat) : Nat := (x &&& y) ^^^ (x &&& z) ^^^ (y &&& z)

def bigSigma0 (x : Nat) : Nat := rotr 2 x ^^^ rotr 13 x ^^^ rotr 22 x

def bigSigma1 (x : Nat) : Nat := rotr 6 x ^^^ rotr 11 x ^^^ rotr 25 x

def smallSigma0 (x : Nat) : Nat := rotr 7 x ^^^ rotr 18 x ^^^ (x >>> 3)

def smallSigma1 (x : Nat) : Nat := rotr 17 x ^^^ rotr 19 x ^^^ (x >>> 10)

/-- The 64 SHA-256 round constants (fractional cube roots of the first 64 primes). -/
def shaK : List Nat :=
  [1116352408, 1899447441, 3049323471, 3921009573, 961987163, 1508970993, 2453635748, 2870763221,
   3624381080, 310598401, 607225278, 1426881987, 1925078388, 2162078206, 2614888103, 3248222580,
   3835390401, 4022224774, 264347078, 604807628, 770255983, 1249150122, 1555081692, 1996064986,
   2554220882, 2821834349, 2952996808, 3210313671, 3336571891, 3584528711, 113926993, 338241895,
   666307205, 773529912, 1294757372, 1396182291, 1695183700, 1986661051, 2177026350, 2456956037,
   2730485921, 2820302411, 3259730800, 3345764771, 3516065817, 3600352804, 4094571909, 275423344,
   430227734, 506948616, 659060556, 883997877, 958139571, 1322822218, 1537002063, 1747873779,
   1955562222, 2024104815, 2227730452, 2361852424, 2428436474, 2756734187, 3204031479, 3329325298]

/-- The SHA-256 initial hash state (fractional square roots of the first 8 primes). -/
def shaH0 : List Nat :=
  [1779033703, 3144134277, 1013904242, 2773480762, 1359893119, 2600822924, 528734635, 1541459225]

/-- Group bytes into big-endian 32-bit words. -/
def bytesToWords : List Nat → List Nat
  | a :: b :: c :: d :: rest => (((a * 256 + b) * 256 + c) * 256 + d) :: bytesToWords rest
  | _ => []

/-- SHA-256 padding: append 0x80, zeros, then the 64-bit big-endian bit length. -/
def padMessage (msg : List Nat) : List Nat :=
  let L := msg.length
  let z := (119 - L % 64) % 64
  let bits := 8 * L
  msg ++ (128 :: List.replicate z 0) ++
    [bits >>> 56 % 256, bits >>> 48 % 256, bits >>> 40 % 256, bits >>> 32 % 256,
     bits >>> 24 % 256, bits >>> 16 % 256, bits >>> 8 % 256, bits % 256]

/-- Extend a 16-word block to the 64-word message schedule. -/
def shaExtend : Nat → List Nat → List Nat
  | 0, w => w
  | n + 1, w =>
    let L := w.length
    let nw := w32 (smallSigma1 (w.getD (L - 2) 0) + w.getD (L - 7) 0 +
                   smallSigma0 (w.getD (L - 15) 0) + w.getD (L - 16) 0)
    shaExtend n (w ++ [nw])

/-- The 64 compression rounds; the state is [a,b,c,d,e,f,g,h]. -/
def shaRounds : List Nat → List (Nat × Nat) → List Nat
  | st, [] => st
  | st, (kv, wv) :: rest =>
    match st with
    | [a, b, c, d, e, f, g, hh] =>
      let t1 := w32 (hh + bigSigma1 e + shaCh e f g + kv + wv)
      let t2 := w32 (bigSigma0 a + shaMaj a b c)
      shaRounds [w32 (t1 + t2), a, b, c, w32 (d + t1), e, f, g] rest
    | other => other

/-- Compress one 16-word block into the running hash state. -/
def compressBlock (h : List Nat) (block : List Nat) : List Nat :=
  let w := shaExtend 48 block
  let st := shaRounds h (shaK.zip w)
  (h.zip st).map (fun p => w32 (p.1 + p.2))

/-- Fold the compression over all 16-word blocks (the fuel bounds the block count). -/
def sha256Blocks : Nat → List Nat → List Nat → List Nat
  | _, h, [] => h
  | 0, h, _ => h
  | fuel + 1, h, words => sha256Blocks fuel (compressBlock h (words.take 16)) (words.drop 16)

/-- SHA-256 of a byte list, as the 8 final 32-bit state words. -/
def sha256Words (msg : List Nat) : List Nat :=
  let words := bytesToWords (padMessage msg)
  sha256Blocks words.length shaH0 words

/-- A lowercase hexadecimal digit. -/
def hexDigit (n : Nat) : Char := if n < 10 then Char.ofNat (48 + n) else Char.ofNat (87 + n)

/-- Lowercase hex rendering of a 32-bit word (8 digits). -/
def wordToHex (w : Nat) : String :=
  String.mk [hexDigit (w >>> 28 % 16), hexDigit (w >>> 24 % 16), hexDigit (w >>> 20 % 16),
             hexDigit (w >>> 16 % 16), hexDigit (w >>> 12 % 16), hexDigit (w >>> 8 % 16),
             hexDigit (w >>> 4 % 16), hexDigit (w % 16)]

/-- UTF-8 encoding of one character (str.encode(), default encoding). -/
def utf8Bytes (c : Char) : List Nat :=
  let n := c.toNat
  if n < 128 then [n]
  else if n < 2048 then [192 + n / 64, 128 + n % 64]
  else if n < 65536 then [224 + n / 4096, 128 + n / 64 % 64, 128 + n % 64]
  else [240 + n / 262144, 128 + n / 4096 % 64, 128 + n / 64 % 64, 128 + n % 64]

/-- The UTF-8 bytes of a string. -/
def strBytes (s : String) : List Nat := (s.data.map utf8Bytes).flatten

/-- `hashlib.sha256(s.encode()).hexdigest()`. -/
def sha256Hex (s : String) : String :=
  String.join ((sha256Words (strBytes s)).map wordToHex)

/-! ## Python JSON values and json.dumps(..., sort_keys=True) -/

/-- JSON-compatible Python values. Object fields keep insertion order, as Python dicts do. -/
inductive Json where
  | null : Json
  | bool (b : Bool) : Json
  | int (n : Int) : Json
  | float (q : ℚ) : Json
  | str (s : String) : Json
  | arr (xs : List Json) : Json
  | obj (kvs : List (String × Json)) : Json

/-- A transaction: a Python dict of JSON-compatible values. -/
def Tx : Type := List (String × Json)

/-- Python string `<=` (lexicographic on code points, a prefix sorts first). -/
def charListLe : List Char → List Char → Bool
  | [], _ => true
  | _ :: _, [] => false
  | a :: as, b :: bs =>
    if a.toNat < b.toNat then true
    else if b.toNat < a.toNat then false
    else charListLe as bs

def pyStrLe (a b : String) : Bool := charListLe a.data b.data

/-- Insert into a sorted list, before the first element that is not `le`-smaller.
This is the stable insertion used to model Python `sorted`. -/
def insertSorted {α : Type} (le : α → α → Bool) (x : α) : List α → List α
  | [] => [x]
  | y :: ys => if le x y then x :: y :: ys else y :: insertSorted le x ys

/-- Python `sorted` with a boolean `<=` comparison (stable). -/
def pySorted {α : Type} (le : α → α → Bool) : List α → List α
  | [] => []
  | x :: xs => insertSorted le x (pySorted le xs)

/-- `\uXXXX` escape of a code unit, lowercase hex. -/
def uEscape (n : Nat) : List Char :=
  [Char.ofNat 92, Char.ofNat 117, hexDigit (n / 4096 % 16), hexDigit (n / 256 % 16),
   hexDigit (n / 16 % 16), hexDigit (n % 16)]

/-- json.dumps character escaping, with the default ensure_ascii=True. -/
def escapeChar (c : Char) : List Char :=
  let n := c.toNat
  if n = 34 then [Char.ofNat 92, Char.ofNat 34]
  else if n = 92 then [Char.ofNat 92, Char.ofNat 92]
  else if n = 8 then [Char.ofNat 92, Char.ofNat 98]
  else if n = 9 then [Char.ofNat 92, Char.ofNat 116]
  else if n = 10 then [Char.ofNat 92, Char.ofNat 110]
  else if n = 12 then [Char.ofNat 92, Char.ofNat 102]
  else if n = 13 then [Char.ofNat 92, Char.ofNat 114]
  else if n < 32 then uEscape n
  else if n < 127 then [c]
  else if n < 65536 then uEscape n
  else
    let m := n - 65536
    uEscape (55296 + m / 1024) ++ uEscape (56320 + m % 1024)

/-- A JSON string literal: quotes around the escaped characters. -/
def pyStrLit (s : String) : String :=
  String.mk (Char.ofNat 34 :: (s.data.map escapeChar).flatten ++ [Char.ofNat 34])

/-- `sep.join(parts)`. -/
def joinSep (sep : String) : List String → String
  | [] => ("")
  | [x] => x
  | x :: y :: rest => x ++ sep ++ joinSep sep (y :: rest)

/-- Fractional decimal digits of rem/den, stopping at the exact expansion (or at the fuel). -/
def fracDigitsNat : Nat → Nat → Nat → List Char
  | 0, _, _ => []
  | fuel + 1, rem, den =>
    if rem = 0 then []
    else hexDigit (rem * 10 / den) :: fracDigitsNat fuel (rem * 10 % den) den

/-- Python `repr` of a float, modelled for rationals with a short exact decimal
expansion (the only floats the system serializes); e.g. `3 ↦ "3.0"`, `5/2 ↦ "2.5"`. -/
def pyFloatRepr (q : ℚ) : String :=
  let sign := if q.num < 0 then ("-") else ("")
  let n := q.num.natAbs
  let ip := n / q.den
  let rem := n % q.den
  sign ++ toString ip ++ (".") ++
    (if rem = 0 then ("0") else String.mk (fracDigitsNat 17 rem q.den))

/-- Python `<=` on the first (key) component of a rendered entry. -/
def keyLe {β : Type} (a b : String × β) : Bool := pyStrLe a.1 b.1

mutual

/-- `json.dumps(v, sort_keys=True)`: keys of every object are emitted in sorted order,
with CPython's default separators `", "` and `": "` (one space after each). -/
def pyDumps : Json → String
  | .null => ("null")
  | .bool b => if b then ("true") else ("false")
  | .int n => toString n
  | .float q => pyFloatRepr q
  | .str s => pyStrLit s
  | .arr xs => ("[") ++ joinSep (", ") (pyDumpsList xs) ++ ("]")
  | .obj kvs =>
    ("\x7b") ++
      joinSep (", ")
        ((pySorted keyLe (pyDumpsKVs kvs)).map (fun e => pyStrLit e.1 ++ (": ") ++ e.2)) ++
      ("\x7d")

def pyDumpsList : List Json → List String
  | [] => []
  | x :: rest => pyDumps x :: pyDumpsList rest

/-- Render the values of a dict, keeping each key with its rendered value. -/
def pyDumpsKVs : List (String × Json) → List (String × String)
  | [] => []
  | kv :: rest => (kv.1, pyDumps kv.2) :: pyDumpsKVs rest

end

mutual

/-- Recursively sort every object of a JSON value by key (the normal form that the
spec's canonical serialization uses). -/
def sortJson : Json → Json
  | .null => .null
  | .bool b => .bool b
  | .int n => .int n
  | .float q => .float q
  | .str s => .str s
  | .arr xs => .arr (sortJsonList xs)
  | .obj kvs => .obj (pySorted keyLe (sortJsonKVs kvs))

def sortJsonList : List Json → List Json
  | [] => []
  | x :: rest => sortJson x :: sortJsonList rest

def sortJsonKVs : List (String × Json) → List (String × Json)
  | [] => []
  | kv :: rest => (kv.1, sortJson kv.2) :: sortJsonKVs rest

end

mutual

/-- Plain JSON emission with the given item and key separators, writing object entries
in the order they appear (no sorting). Modelled from the spec's serialization grammar. -/
def emitJson (isep ksep : String) : Json → String
  | .null => ("null")
  | .bool b => if b then ("true") else ("false")
  | .int n => toString n
  | .float q => pyFloatRepr q
  | .str s => pyStrLit s
  | .arr xs => ("[") ++ joinSep isep (emitJsonList isep ksep xs) ++ ("]")
  | .obj kvs =>
    ("\x7b") ++ joinSep isep (emitJsonKVs isep ksep kvs) ++ ("\x7d")

def emitJsonList (isep ksep : String) : List Json → List String
  | [] => []
  | x :: rest => emitJson isep ksep x :: emitJsonList isep ksep rest

def emitJsonKVs (isep ksep : String) : List (String × Json) → List String
  | [] => []
  | kv :: rest => (pyStrLit kv.1 ++ ksep ++ emitJson isep ksep kv.2) :: emitJsonKVs isep ksep rest

end

/-- The spec's canonical serialization with explicit separators: sort object keys
lexicographically at every nesting level, then emit with `isep` between items and
`ksep` after each key. The canonical JSON of the spec is `specSerialize "," ":"`:
no insignificant whitespace. -/
def specSerialize (isep ksep : String) (v : Json) : String :=
  emitJson isep ksep (sortJson v)

/-! ## MerkleTree (src/utils/merkle_tree.py)

`MerkleNode` objects carry only their `hash` into every computation performed by
`_build_tree`, `get_proof` and `verify_proof` (`_create_parent_node` reads nothing but the
children's `hash` fields), so a tree level is embedded as the list of its node hashes. -/

/-- The root of an empty transaction set: 64 `'0'` characters. -/
def zeros64 : String := String.mk (List.replicate 64 (Char.ofNat 48))

/-- `_create_leaf_node`: hash of `json.dumps(transaction, sort_keys=True)`, under the
hash function `H` (`sha256Hex` in the source). -/
def leafHashH (H : String → String) (tx : Tx) : String := H (pyDumps (Json.obj tx))

/-- One bottom-up pairing step: `_create_parent_node` over consecutive pairs, the
rightmost node of an odd level paired with itself. -/
def pairUpH (H : String → String) : List String → List String
  | [] => []
  | [x] => [H (x ++ x)]
  | x :: y :: rest => H (x ++ y) :: pairUpH H rest

/-- The `while len(current_level) > 1` loop of `_build_tree`; the fuel bounds the number
of iterations (each iteration at least halves the level, so any fuel at least the
initial length suffices). -/
def buildRootLoop (H : String → String) : Nat → List String → String
  | 0, level => level.headD zeros64
  | fuel + 1, level =>
    if level.length ≤ 1 then level.headD zeros64
    else buildRootLoop H fuel (pairUpH H level)

/-- `MerkleTree(transactions).get_root_hash()`: `"0" * 64` for an empty transaction
list, otherwise the bottom-up fold of `_build_tree`. -/
def getRootHash (H : String → String) (txs : List Tx) : String :=
  if txs.isEmpty then zeros64
  else buildRootLoop H txs.length (txs.map (leafHashH H))

/-- A Merkle proof entry: the sibling hash and "left"/"right", the side the sibling
occupies relative to the current node. -/
structure ProofItem where
  hash : String
  position : String

deriving DecidableEq

/-- The linear scan of `get_proof` that locates the current node's hash in a level
(first match wins, as in the Python `for i, node in enumerate(...)` loop). -/
def scanIdx (cur : String) : List String → Option Nat
  | [] => none
  | h :: rest => if h == cur then some 0 else (scanIdx cur rest).map (· + 1)

/-- The level loop of `get_proof`: find the current hash in the level by linear scan,
record the sibling (skipped when the node is the self-paired last node of an odd
level), rebuild the parent level, follow the parent of the matched pair. -/
def getProofLoop (H : String → String) : Nat → List String → String → List ProofItem
  | 0, _, _ => []
  | fuel + 1, level, cur =>
    if level.length ≤ 1 then []
    else
      match scanIdx cur level with
      | none => []
      | some j =>
        let isLeft := j % 2 == 0
        let sibIdx := if isLeft then j + 1 else j - 1
        let items :=
          if sibIdx < level.length then
            [ProofItem.mk (level.getD sibIdx ("")) (if isLeft then ("right") else ("left"))]
          else []
        let next := pairUpH H level
        items ++ getProofLoop H fuel next (next.getD (j / 2) (""))

/-- `get_proof` at an in-range non-negative index. -/
def getProofAt (H : String → String) (txs : List Tx) (idx : Nat) : List ProofItem :=
  let leaves := txs.map (leafHashH H)
  getProofLoop H leaves.length leaves (leaves.getD idx (""))

/-- Uncaught Python exceptions reachable in the embedded code. -/
inductive PyErr where
  | attributeError : PyErr
  | indexError : PyErr

deriving DecidableEq

deriving instance DecidableEq for Except

/-- `get_proof(transaction_index)` with Python `int` index semantics: the guard returns
`[]` only when the leaf list is empty or `transaction_index >= len(leaf_nodes)`;
`self.leaf_nodes[transaction_index]` then resolves a negative index from the end and
raises `IndexError` when `transaction_index < -len(leaf_nodes)`. -/
def getProof (H : String → String) (txs : List Tx) (i : Int) : Except PyErr (List ProofItem) :=
  let leaves := txs.map (leafHashH H)
  if leaves.isEmpty ∨ (leaves.length : Int) ≤ i then .ok []
  else if i < -(leaves.length : Int) then .error .indexError
  else
    let idx := (if i < 0 then (leaves.length : Int) + i else i).toNat
    .ok (getProofLoop H leaves.length leaves (leaves.getD idx ("")))

/-- One step of `verify_proof`: combine the running hash with the sibling on the
recorded side. -/
def verifyStep (H : String → String) (cur : String) (item : ProofItem) : String :=
  if item.position == ("left") then H (item.hash ++ cur) else H (cur ++ item.hash)

/-- `verify_proof(transaction, proof, root_hash)`. -/
def verifyProof (H : String → String) (tx : Tx) (proof : List ProofItem) (root : String) :
    Bool :=
  (proof.foldl (verifyStep H) (leafHashH H tx)) == root

/-- `get_transaction_hashes`: the leaf hashes in order. -/
def getTransactionHashes (txs : List Tx) : List String := txs.map (leafHashH sha256Hex)

/-! ## Block (src/consensus/block.py)

The dataclass always runs `__post_init__`, which rebuilds the Merkle tree from
`transactions`, overwrites `merkle_root` with the rebuilt root, and sets `hash` from
`calculate_hash`. The `merkle_tree` attribute carries no information beyond
`transactions` (it is always `MerkleTree(self.transactions)`), so it is not a separate
field of the embedding. -/

structure Block where
  blockIndex : Int
  timestamp : ℚ
  transactions : List Tx
  previousHash : String
  validator : String
  energyMetrics : List (String × ℚ)
  merkleRoot : String
  hash : String

/-- The JSON object serialized by `calculate_hash` (keys are sorted by `pyDumps`). -/
def blockHashJson (blockIndex : Int) (timestamp : ℚ) (merkleRoot previousHash validator : String)
    (energyMetrics : List (String × ℚ)) : Json :=
  Json.obj
    [(("block_index"), Json.int blockIndex),
     (("timestamp"), Json.float timestamp),
     (("merkle_root"), Json.str merkleRoot),
     (("previous_hash"), Json.str previousHash),
     (("validator"), Json.str validator),
     (("energy_metrics"), Json.obj (energyMetrics.map (fun kv => (kv.1, Json.float kv.2))))]

/-- `calculate_hash`: SHA-256 of the canonical JSON of the six hashed fields. -/
def calculateHash (blockIndex : Int) (timestamp : ℚ) (merkleRoot previousHash validator : String)
    (energyMetrics : List (String × ℚ)) : String :=
  sha256Hex (pyDumps (blockHashJson blockIndex timestamp merkleRoot previousHash validator
    energyMetrics))

/-- `Block(...)` construction including `__post_init__`: the Merkle root is rebuilt
from the transactions (any `merkle_root` argument is overwritten) and `hash` is
computed from the resulting fields. -/
def Block.make (blockIndex : Int) (timestamp : ℚ) (transactions : List Tx)
    (previousHash validator : String) (energyMetrics : List (String × ℚ)) : Block :=
  let root := getRootHash sha256Hex transactions
  { blockIndex := blockIndex
    timestamp := timestamp
    transactions := transactions
    previousHash := previousHash
    validator := validator
    energyMetrics := energyMetrics
    merkleRoot := root
    hash := calculateHash blockIndex timestamp root previousHash validator energyMetrics }

/-- The wire dictionary produced by `to_dict` (all fields, no live tree). -/
structure BlockDict where
  blockIndex : Int
  timestamp : ℚ
  transactions : List Tx
  previousHash : String
  hash : String
  validator : String
  energyMetrics : List (String × ℚ)
  merkleRoot : String

/-- `to_dict`. -/
def Block.toDict (b : Block) : BlockDict :=
  { blockIndex := b.blockIndex
    timestamp := b.timestamp
    transactions := b.transactions
    previousHash := b.previousHash
    hash := b.hash
    validator := b.validator
    energyMetrics := b.energyMetrics
    merkleRoot := b.merkleRoot }

/-- `from_dict`: forwards the stored fields to the constructor. The stored
`merkle_root` is passed along but `__post_init__` recomputes and overwrites it, and the
stored `hash` is never read; no comparison against the rebuilt root ever happens. -/
def Block.fromDict (d : BlockDict) : Block :=
  Block.make d.blockIndex d.timestamp d.transactions d.previousHash d.validator
    d.energyMetrics

/-! ## DPoS engine (src/consensus/dpos.py)

The engine state. `metrics` models `self.metrics.all_nodes_metrics` as a partial map
from node id to the effective metrics timestamp: `none` for a node with no (or falsy)
metrics record, `some t` for a record whose `timestamp` (default 0 under `.get`) is
`t`; the outer `Option` is `none` when no metrics instance was supplied at all. -/

structure DPoSState where
  maxValidators : Nat
  validators : List (String × ℚ)
  delegates : List String
  blockTime : ℚ
  energyThreshold : ℚ
  metrics : Option (String → Option ℚ)
  livenessThreshold : ℚ
  lastDelegateUpdateTime : ℚ
  delegateUpdateInterval : ℚ

/-- `DPoS.__init__` (the defaults; `metrics` is the optional constructor argument). -/
def DPoS.init (maxValidators : Nat) (metrics : Option (String → Option ℚ)) : DPoSState :=
  { maxValidators := maxValidators
    validators := []
    delegates := []
    blockTime := 3
    energyThreshold := 5
    metrics := metrics
    livenessThreshold := 60
    lastDelegateUpdateTime := 0
    delegateUpdateInterval := 300 }

/-- Python dict membership for the validators map. -/
def pyDictContains (l : List (String × ℚ)) (k : String) : Bool := l.any (fun kv => kv.1 == k)

/-- Python dict assignment on an existing key (insertion order preserved). -/
def pyDictSet (l : List (String × ℚ)) (k : String) (v : ℚ) : List (String × ℚ) :=
  l.map (fun kv => if kv.1 == k then (kv.1, v) else kv)

/-- Python `del` on a dict key (insertion order of the others preserved). -/
def pyDictErase (l : List (String × ℚ)) (k : String) : List (String × ℚ) :=
  l.filter (fun kv => !(kv.1 == k))

/-- The comparison behind `sorted(validators.items(), key=lambda x: (-x[1], x[0]))`:
stake descending, then node id ascending. -/
def stakeKeyLe (a b : String × ℚ) : Bool :=
  if b.2 < a.2 then true
  else if a.2 == b.2 then pyStrLe a.1 b.1
  else false

/-- The delegate list recomputed by `_update_delegates`: ids of the stake-sorted
validators, truncated to `max_validators`. -/
def computeDelegates (validators : List (String × ℚ)) (maxValidators : Nat) : List String :=
  ((pySorted stakeKeyLe validators).map (fun kv => kv.1)).take maxValidators

/-- `_update_delegates(force_update)`: a no-op unless forced or the update interval has
elapsed; otherwise recompute the delegates and stamp the update time. -/
def updateDelegates (st : DPoSState) (force : Bool) (now : ℚ) : DPoSState :=
  if !force && decide (now - st.lastDelegateUpdateTime < st.delegateUpdateInterval) then st
  else
    { st with
      delegates := computeDelegates st.validators st.maxValidators
      lastDelegateUpdateTime := now }

/-- `add_validator`: fails when the roster is full, otherwise inserts or updates. -/
def addValidator (st : DPoSState) (addr : String) (stake : ℚ) : DPoSState × Bool :=
  if st.maxValidators ≤ st.validators.length then (st, false)
  else if pyDictContains st.validators addr then
    ({ st with validators := pyDictSet st.validators addr stake }, true)
  else ({ st with validators := st.validators ++ [(addr, stake)] }, true)

/-- `remove_validator`: deletes the entry when present. It does NOT touch the
delegates list or the update time. -/
def removeValidator (st : DPoSState) (addr : String) : DPoSState × Bool :=
  if pyDictContains st.validators addr then
    ({ st with validators := pyDictErase st.validators addr }, true)
  else (st, false)

/-- `update_stake`: sets the stake when the validator exists and forces a delegate
recomputation. -/
def updateStake (st : DPoSState) (addr : String) (newStake : ℚ) (now : ℚ) :
    DPoSState × Bool :=
  if !(pyDictContains st.validators addr) then (st, false)
  else
    (updateDelegates { st with validators := pyDictSet st.validators addr newStake } true now,
      true)

/-- The live-delegate filter of `get_current_validator`: with a metrics instance, keep
the delegates whose metrics timestamp is fresher than the liveness threshold; with no
metrics instance, every delegate counts as active. -/
def liveFilter (st : DPoSState) (now : ℚ) : List String :=
  match st.metrics with
  | some view =>
    st.delegates.filter (fun d =>
      match view d with
      | some ts => decide (now - ts < st.livenessThreshold)
      | none => false)
  | none => st.delegates

/-- `get_current_validator(reference_block_index)`: none when there are no delegates or
no live delegates; otherwise the live delegates sorted ascending by id, indexed at
`(reference_block_index + 1) % len(active)` (Python modulo: always non-negative). -/
def getCurrentValidator (st : DPoSState) (now : ℚ) (refIndex : Int) : Option String :=
  if st.delegates.isEmpty then none
  else
    let active := pySorted pyStrLe (liveFilter st now)
    if active.isEmpty then none
    else some (active.getD ((refIndex + 1) % (active.length : Int)).toNat (""))

/-- `is_time_to_propose_block(last_block_timestamp)`. -/
def isTimeToProposeBlock (st : DPoSState) (now lastBlockTimestamp : ℚ) : Bool :=
  decide (lastBlockTimestamp + st.blockTime ≤ now)

/-- `_validate_merkle_tree(block)`: the root must be non-empty, the root of the tree
rebuilt from the transactions must equal `merkle_root`, and the leaf count must equal
the transaction count. (`block.merkle_tree` always exists: `__post_init__` builds it,
and the performance-monitoring block only logs.) -/
def validateMerkleTree (b : Block) : Bool :=
  if b.merkleRoot == ("") then false
  else if !(b.merkleRoot == getRootHash sha256Hex b.transactions) then false
  else if !((getTransactionHashes b.transactions).length == b.transactions.length) then false
  else true

/-- `validate_block(block, power_usage, previous_block_timestamp, previous_block_index,
sync_tolerance)`: the chain of early-return checks of the source, in order. -/
def validateBlock (st : DPoSState) (now : ℚ) (b : Block) (powerUsage : ℚ)
    (prevTimestamp : ℚ) (prevIndex : Int) (syncTolerance : ℚ) : Bool :=
  if !(st.delegates.contains b.validator) then false
  else if !(getCurrentValidator st now prevIndex == some b.validator) then false
  else if b.timestamp ≤ prevTimestamp - syncTolerance then false
  else if b.blockIndex ≤ prevIndex then false
  else if st.blockTime < |now - b.timestamp| then false
  else if !(validateMerkleTree b) then false
  else if st.energyThreshold < powerUsage then false
  else true

/-- `adjust_block_time(network_load)`: high load shortens the block time down to 1,
low load lengthens it up to 5 (steps of 0.5). -/
def adjustBlockTime (st : DPoSState) (networkLoad : ℚ) : DPoSState :=
  if (mkRat 4 5) < networkLoad then
    { st with blockTime := max 1 (st.blockTime - mkRat 1 2) }
  else if networkLoad < (mkRat 3 10) then
    { st with blockTime := min 5 (st.blockTime + mkRat 1 2) }
  else st

mutual

/-- Size measure for the nested induction over JSON values. -/
def jsonSize : Json → Nat
  | .null => 1
  | .bool _ => 1
  | .int _ => 1
  | .float _ => 1
  | .str _ => 1
  | .arr xs => 1 + jsonListSize xs
  | .obj kvs => 1 + jsonKVsSize kvs

def jsonListSize : List Json → Nat
  | [] => 0
  | x :: rest => jsonSize x + jsonListSize rest

def jsonKVsSize : List (String × Json) → Nat
  | [] => 0
  | kv :: rest => jsonSize kv.2 + jsonKVsSize rest

end

def dposABC : DPoSState :=
  { maxValidators := 21
    validators := [(("a"), 1000), (("b"), 1000), (("c"), 1000)]
    delegates := [("c"), ("b"), ("a")]
    blockTime := 3
    energyThreshold := 5
    metrics := some (fun _ => some 0)
    livenessThreshold := 60
    lastDelegateUpdateTime := 0
    delegateUpdateInterval := 300 }

def dposStaleDelegates : DPoSState :=
  { maxValidators := 21
    validators := [(("a"), 100), (("b"), 200)]
    delegates := [("x")]
    blockTime := 3
    energyThreshold := 5
    metrics := none
    livenessThreshold := 60
    lastDelegateUpdateTime := 0
    delegateUpdateInterval := 300 }

def dposSingleValidator : DPoSState :=
  { maxValidators := 21
    validators := [(("a"), 1)]
    delegates := [("a")]
    blockTime := 3
    energyThreshold := 5
    metrics := none
    livenessThreshold := 60
    lastDelegateUpdateTime := 0
    delegateUpdateInterval := 300 }

/-- Python `str.strip()` whitespace test (ASCII whitespace). -/
def pyIsSpaceChar (c : Char) : Bool :=
  (c.toNat == 32) || (c.toNat == 9) || (c.toNat == 10) || (c.toNat == 13) ||
    (c.toNat == 11) || (c.toNat == 12)

/-- Python `str.strip()`. -/
def pyStrip (s : String) : String :=
  String.mk (((s.data.dropWhile pyIsSpaceChar).reverse.dropWhile pyIsSpaceChar).reverse)

/-- Python `str.lower()` (modelled for ASCII identifiers). -/
def pyLower (s : String) : String :=
  String.mk (s.data.map (fun c =>
    if 65 ≤ c.toNat ∧ c.toNat ≤ 90 then Char.ofNat (c.toNat + 32) else c))

/-- The outcome of one pass of the proposer loop body when no exception occurs. -/
inductive ProposerOutcome where
  | notValidator : ProposerOutcome
  | unhealthy : ProposerOutcome
  | notTime : ProposerOutcome
  | noPending : ProposerOutcome
  | proposed (txs : List Tx) : ProposerOutcome

/-- `self.blocks[-1].timestamp if self.blocks else 0.0`. -/
def prevTimestampOf (blocks : List Block) : ℚ :=
  match blocks.getLast? with
  | some b => b.timestamp
  | none => 0

/-- `self.blocks[-1].block_index if self.blocks else -1`. -/
def prevIndexOf (blocks : List Block) : Int :=
  match blocks.getLast? with
  | some b => b.blockIndex
  | none => -1

/-- One pass of `_process_transactions_periodically` up to its effect decision,
modelled on the loop body: when `get_current_validator` returns `None`, the very next
statement calls `current_validator.strip()`, which raises an uncaught
`AttributeError`. -/
def processTransactionsStep (st : DPoSState) (blocks : List Block) (nodeId : String)
    (healthOk : Bool) (pending : List Tx) (now : ℚ) : Except PyErr ProposerOutcome :=
  match getCurrentValidator st now (prevIndexOf blocks) with
  | none => .error .attributeError
  | some cv =>
    if pyLower (pyStrip cv) == pyLower (pyStrip nodeId) then
      if !healthOk then .ok .unhealthy
      else if !(isTimeToProposeBlock st now (prevTimestampOf blocks)) then .ok .notTime
      else if pending.isEmpty then .ok .noPending
      else .ok (.proposed (pending.take 10))
    else .ok .notValidator

/-! ## Theorems -/

/-- Sanity check against the FIPS 180-2 test vector for "abc". -/
example : sha256Hex ("abc") = ("ba7816bf8f01cfea414140de5dae2223b00361a396177a9cb410ff61f20015ad") := by
  decide

/-- Sanity check against the standard digest of the empty string. -/
example : sha256Hex ("") = ("e3b0c44298fc1c149afbf4c8996fb92427ae41e4649b934ca495991b7852b855") := by
  decide

example : pyDumps (Json.obj [(("b"), Json.int 2), (("a"), Json.int 1)]) =
    ("\x7b\"a\": 1, \"b\": 2\x7d") := by decide

example : specSerialize (",") (":") (Json.obj [(("b"), Json.int 2), (("a"), Json.int 1)]) =
    ("\x7b\"a\":1,\"b\":2\x7d") := by decide

example :
    getRootHash sha256Hex [] = zeros64 := by decide

example :
    verifyProof sha256Hex [(("a"), Json.int 1)] []
      (getRootHash sha256Hex [[(("a"), Json.int 1)]]) = true := by decide

theorem pairUpH_length (H : String → String) :
    ∀ l : List String, (pairUpH H l).length = (l.length + 1) / 2
  | [] => rfl
  | [x] => by simp [pairUpH]
  | x :: y :: rest => by
    simp only [pairUpH, List.length_cons, pairUpH_length H rest]
    omega

theorem pairUpH_getD (H : String → String) :
    ∀ (l : List String) (m : Nat), 2 * m + 1 < l.length →
      (pairUpH H l).getD m ("") = H (l.getD (2 * m) ("") ++ l.getD (2 * m + 1) (""))
  | [], m, h => by simp at h
  | [x], m, h => by simp at h
  | x :: y :: rest, 0, h => by simp [pairUpH]
  | x :: y :: rest, m + 1, h => by
    have hlt : 2 * m + 1 < rest.length := by simp [List.length_cons] at h; omega
    have ih := pairUpH_getD H rest m hlt
    have h1 : 2 * (m + 1) = 2 * m + 1 + 1 := by omega
    have h2 : 2 * (m + 1) + 1 = 2 * m + 1 + 1 + 1 := by omega
    simp only [pairUpH, List.getD_cons_succ, h1, h2, ih]

theorem getD_mem : ∀ (l : List String) (m : Nat), m < l.length → l.getD m ("") ∈ l
  | [], _, h => by simp at h
  | x :: rest, 0, _ => by simp
  | x :: rest, m + 1, h => by
    have : m < rest.length := by simp [List.length_cons] at h; omega
    simpa using Or.inr (getD_mem rest m this)

theorem scanIdx_spec (cur : String) :
    ∀ l : List String, cur ∈ l →
      ∃ j, scanIdx cur l = some j ∧ j < l.length ∧ l.getD j ("") = cur
  | [], h => by simp at h
  | x :: rest, h => by
    by_cases hx : x == cur
    · exact ⟨0, by simp [scanIdx, hx], by simp, by simpa using (eq_of_beq hx)⟩
    · have hcur : cur ∈ rest := by
        rcases List.mem_cons.mp h with h1 | h1
        · exact absurd (beq_iff_eq.mpr h1.symm) hx
        · exact h1
      obtain ⟨j, hj1, hj2, hj3⟩ := scanIdx_spec cur rest hcur
      exact ⟨j + 1, by simp [scanIdx, hx, hj1], by simp; omega, by simpa using hj3⟩

theorem getD_map (f : Tx → String) :
    ∀ (l : List Tx) (i : Nat), i < l.length → (l.map f).getD i ("") = f (l.getD i [])
  | [], i, h => by simp at h
  | x :: rest, 0, _ => by simp
  | x :: rest, i + 1, h => by
    have : i < rest.length := by simp [List.length_cons] at h; omega
    simpa using getD_map f rest i this

theorem getProofLoop_step (H : String → String) (fuel : Nat) (level : List String)
    (cur : String) (j : Nat) (hgt : ¬ level.length ≤ 1) (hscan : scanIdx cur level = some j) :
    getProofLoop H (fuel + 1) level cur =
      (if (if j % 2 == 0 then j + 1 else j - 1) < level.length then
        [ProofItem.mk (level.getD (if j % 2 == 0 then j + 1 else j - 1) (""))
          (if j % 2 == 0 then ("right") else ("left"))]
      else []) ++
      getProofLoop H fuel (pairUpH H level) ((pairUpH H level).getD (j / 2) ("")) := by
  conv_lhs => rw [getProofLoop]
  rw [if_neg hgt, hscan]

theorem proofLoop_foldVerify (H : String → String) :
    ∀ (k fuel : Nat) (level : List String) (cur : String),
      level.length = 2 ^ k → 2 ^ k ≤ fuel → cur ∈ level →
      (getProofLoop H fuel level cur).foldl (verifyStep H) cur = buildRootLoop H fuel level := by
  intro k
  induction k with
  | zero =>
    intro fuel level cur hlen hfuel hmem
    obtain ⟨f, rfl⟩ : ∃ f, fuel = f + 1 := ⟨fuel - 1, by omega⟩
    obtain ⟨x, rfl⟩ : ∃ x, level = [x] := List.length_eq_one.mp (by simpa using hlen)
    have hx : cur = x := by simpa using hmem
    simp [getProofLoop, buildRootLoop, hx]
  | succ k ih =>
    intro fuel level cur hlen hfuel hmem
    have hn : 0 < 2 ^ k := Nat.pos_pow_of_pos k (by omega)
    have hlen2 : level.length = 2 * 2 ^ k := by rw [hlen]; ring
    obtain ⟨f, rfl⟩ : ∃ f, fuel = f + 1 := ⟨fuel - 1, by omega⟩
    have hgt : ¬ level.length ≤ 1 := by omega
    obtain ⟨j, hscan, hj, hgetD⟩ := scanIdx_spec cur level hmem
    have hnextlen : (pairUpH H level).length = 2 ^ k := by
      rw [pairUpH_length, hlen2]; omega
    have hfuel' : 2 ^ k ≤ f := by omega
    have hmem' : (pairUpH H level).getD (j / 2) ("") ∈ pairUpH H level :=
      getD_mem _ _ (by omega)
    have hroot : buildRootLoop H (f + 1) level = buildRootLoop H f (pairUpH H level) := by
      conv_lhs => rw [buildRootLoop]
      rw [if_neg hgt]
    rw [getProofLoop_step H f level cur j hgt hscan, hroot]
    by_cases hpar : j % 2 = 0
    · -- matched node is a left child; its sibling j+1 exists because the level has even size
      have hpar1 : (j % 2 == 0) = true := by simp [hpar]
      have hsib : j + 1 < level.length := by omega
      have h2m : 2 * (j / 2) = j := by omega
      rw [hpar1]
      simp only [if_true]
      rw [if_pos hsib, List.singleton_append, List.foldl_cons]
      have hstep : verifyStep H cur (ProofItem.mk (level.getD (j + 1) ("")) ("right")) =
          (pairUpH H level).getD (j / 2) ("") := by
        rw [pairUpH_getD H level (j / 2) (by omega), h2m, hgetD]
        rfl
      rw [hstep]
      exact ih f (pairUpH H level) _ hnextlen hfuel' hmem'
    · -- matched node is a right child; its sibling is j-1
      have hpar1 : (j % 2 == 0) = false := by simp [Nat.mod_two_ne_zero.mp hpar]
      have hsib : j - 1 < level.length := by omega
      have h2m : 2 * (j / 2) = j - 1 := by omega
      have h2m1 : 2 * (j / 2) + 1 = j := by omega
      rw [hpar1]
      simp only [Bool.false_eq_true, if_false]
      rw [if_pos hsib, List.singleton_append, List.foldl_cons]
      have hstep : verifyStep H cur (ProofItem.mk (level.getD (j - 1) ("")) ("left")) =
          (pairUpH H level).getD (j / 2) ("") := by
        rw [pairUpH_getD H level (j / 2) (by omega), h2m1, h2m, hgetD]
        rfl
      rw [hstep]
      exact ih f (pairUpH H level) _ hnextlen hfuel' hmem'

theorem merkle_getProof_ok (H : String → String) (txs : List Tx) (i : Nat)
    (hi : i < txs.length) :
    getProof H txs (i : Int) = .ok (getProofAt H txs i) := by
  have hne : (txs.map (leafHashH H)).isEmpty = false := by
    cases txs
    · simp at hi
    · simp
  have hlenm : (txs.map (leafHashH H)).length = txs.length := List.length_map _ _
  have hc1 : ¬((txs.map (leafHashH H)).isEmpty = true ∨
      ((txs.map (leafHashH H)).length : Int) ≤ (i : Int)) := by
    push_neg
    refine ⟨by simp [hne], ?_⟩
    rw [hlenm]
    exact_mod_cast hi
  have hc3 : ¬((i : Int) < 0) := Int.not_lt.mpr (Int.natCast_nonneg i)
  have hc2 : ¬((i : Int) < -((txs.map (leafHashH H)).length : Int)) := by
    have h0 : (0 : Int) ≤ ((txs.map (leafHashH H)).length : Int) := Int.natCast_nonneg _
    omega
  have hidx : (if (i : Int) < 0 then ((txs.map (leafHashH H)).length : Int) + (i : Int)
      else (i : Int)).toNat = i := by
    rw [if_neg hc3, Int.toNat_natCast]
  unfold getProof getProofAt
  rw [if_neg hc1, if_neg hc2, hidx]

theorem merkle_verify_pow2 (H : String → String) (txs : List Tx) (i k : Nat)
    (hlen : txs.length = 2 ^ k) (hi : i < txs.length) :
    verifyProof H (txs.getD i []) (getProofAt H txs i) (getRootHash H txs) = true := by
  have hne : txs.isEmpty = false := by
    cases txs
    · simp at hi
    · rfl
  have hlenm : (txs.map (leafHashH H)).length = txs.length := List.length_map _ _
  have hleaf : (txs.map (leafHashH H)).getD i ("") = leafHashH H (txs.getD i []) :=
    getD_map _ txs i hi
  have hmem : (txs.map (leafHashH H)).getD i ("") ∈ txs.map (leafHashH H) :=
    getD_mem _ _ (by omega)
  unfold verifyProof getProofAt getRootHash
  rw [hne]
  simp only [Bool.false_eq_true, if_false]
  rw [← hleaf,
    proofLoop_foldVerify H k (txs.map (leafHashH H)).length (txs.map (leafHashH H)) _
      (by omega) (by omega) hmem, hlenm]
  exact beq_self_eq_true _

/-- C3 (amended): for every hash function and every transaction list whose length is a
power of two (which keeps every level even, so no node is ever self-paired — in
particular a single transaction), `get_proof` at an in-range index `i` returns a proof
that `verify_proof` accepts against the root. The original claim fails at odd levels:
there `get_proof` skips the duplicated sibling (its `sibling_index` test fails), so the
self-paired step is missing from the proof and verification fails in general. -/
theorem merkle_proof_verifies (txs : List Tx) (i k : Nat)
    (hlen : txs.length = 2 ^ k) (hi : i < txs.length) :
    getProof sha256Hex txs (i : Int) = .ok (getProofAt sha256Hex txs i) ∧
    verifyProof sha256Hex (txs.getD i []) (getProofAt sha256Hex txs i)
      (getRootHash sha256Hex txs) = true :=
  ⟨merkle_getProof_ok sha256Hex txs i hi, merkle_verify_pow2 sha256Hex txs i k hlen hi⟩

/-- Witness for C3 at two concrete transactions and index 0. -/
theorem merkle_proof_verifies_witness :
    (([[(("i"), Json.int 0)], [(("i"), Json.int 1)]] : List Tx).length = 2 ^ 1 ∧
      0 < ([[(("i"), Json.int 0)], [(("i"), Json.int 1)]] : List Tx).length) ∧
    verifyProof sha256Hex (([[(("i"), Json.int 0)], [(("i"), Json.int 1)]] : List Tx).getD 0 [])
      (getProofAt sha256Hex [[(("i"), Json.int 0)], [(("i"), Json.int 1)]] 0)
      (getRootHash sha256Hex [[(("i"), Json.int 0)], [(("i"), Json.int 1)]]) = true :=
  ⟨⟨rfl, by decide⟩,
    (merkle_proof_verifies [[(("i"), Json.int 0)], [(("i"), Json.int 1)]] 0 1 rfl (by decide)).2⟩

/-- Counterexample to C3 as stated: with three transactions the third leaf is the
self-paired last node of an odd level; the generated proof holds only the one
upper-level sibling (the duplicated sibling does not appear), and verification fails. -/
theorem merkle_proof_verifies_counterexample :
    verifyProof sha256Hex [(("i"), Json.int 2)]
      (getProofAt sha256Hex [[(("i"), Json.int 0)], [(("i"), Json.int 1)], [(("i"), Json.int 2)]] 2)
      (getRootHash sha256Hex
        [[(("i"), Json.int 0)], [(("i"), Json.int 1)], [(("i"), Json.int 2)]]) = false ∧
    getProofAt sha256Hex [[(("i"), Json.int 0)], [(("i"), Json.int 1)], [(("i"), Json.int 2)]] 2 =
      [ProofItem.mk ("7762548f35d0953b23c48e605b9e4314eea59d07a07442aa9fac2eb52a213c86")
        ("left")] := by
  constructor
  · decide
  · decide

/-- C9 (amended): `get_proof(i)` returns `[]` exactly when the transaction list is
empty or `i ≥ len(txs)`. A negative index is not caught by the guard: for
`-len ≤ i < 0` Python list indexing resolves it to leaf `len + i` and a proof is
generated, and for `i < -len` the indexing raises `IndexError`. -/
theorem getProof_out_of_range (H : String → String) (txs : List Tx) (i : Int) :
    (((txs.length : Int) ≤ i ∨ txs = []) → getProof H txs i = .ok []) ∧
    ((-(txs.length : Int) ≤ i ∧ i < 0) →
      getProof H txs i = .ok (getProofAt H txs ((txs.length : Int) + i).toNat)) ∧
    ((i < -(txs.length : Int) ∧ txs ≠ []) → getProof H txs i = .error .indexError) := by
  have hlenm : (txs.map (leafHashH H)).length = txs.length := List.length_map _ _
  refine ⟨?_, ?_, ?_⟩
  · intro h
    unfold getProof
    rw [if_pos]
    rcases h with h | h
    · right
      rw [hlenm]
      exact h
    · left
      subst h
      rfl
  · rintro ⟨h1, h2⟩
    have hpos : 0 < txs.length := by omega
    have hc1 : ¬((txs.map (leafHashH H)).isEmpty = true ∨
        ((txs.map (leafHashH H)).length : Int) ≤ i) := by
      push_neg
      constructor
      · cases txs
        · simp at hpos
        · simp
      · rw [hlenm]
        omega
    have hc2 : ¬(i < -((txs.map (leafHashH H)).length : Int)) := by rw [hlenm]; omega
    have hidx : (if i < 0 then ((txs.map (leafHashH H)).length : Int) + i else i).toNat =
        ((txs.length : Int) + i).toNat := by rw [if_pos h2, hlenm]
    unfold getProof getProofAt
    rw [if_neg hc1, if_neg hc2, hidx]
  · rintro ⟨h1, h2⟩
    have hpos : 0 < txs.length := by
      cases txs
      · exact absurd rfl h2
      · simp
    have hc1 : ¬((txs.map (leafHashH H)).isEmpty = true ∨
        ((txs.map (leafHashH H)).length : Int) ≤ i) := by
      push_neg
      constructor
      · cases txs
        · simp at hpos
        · simp
      · rw [hlenm]
        omega
    have hc2 : i < -((txs.map (leafHashH H)).length : Int) := by rw [hlenm]; omega
    unfold getProof
    rw [if_neg hc1, if_pos hc2]

/-- Witness for C9 at one concrete transaction and index 5 (out of range above). -/
theorem getProof_out_of_range_witness :
    getProof sha256Hex [[(("a"), Json.int 1)]] 5 = .ok [] :=
  (getProof_out_of_range sha256Hex [[(("a"), Json.int 1)]] 5).1 (Or.inl (by decide))

/-- Counterexample to C9 as stated: negative indices do not yield `[]` — `-1` yields a
real proof (the sibling of the last leaf) and `-3` raises `IndexError`. -/
theorem getProof_out_of_range_counterexample :
    getProof sha256Hex [[(("i"), Json.int 5)], [(("i"), Json.int 6)]] (-3) =
      .error .indexError ∧
    getProof sha256Hex [[(("i"), Json.int 5)], [(("i"), Json.int 6)]] (-1) ≠ .ok [] := by
  constructor
  · decide
  · decide

/-- C7 (confirmed): for every block whose `merkle_root` and `hash` satisfy the
constructor invariants (every block object built by the class does), deserializing its
wire dictionary reproduces the block, hash and Merkle root included. -/
theorem block_roundtrip (b : Block)
    (hroot : b.merkleRoot = getRootHash sha256Hex b.transactions)
    (hhash : b.hash = calculateHash b.blockIndex b.timestamp b.merkleRoot b.previousHash
      b.validator b.energyMetrics) :
    Block.fromDict (Block.toDict b) = b ∧
    (Block.fromDict (Block.toDict b)).hash = b.hash ∧
    (Block.fromDict (Block.toDict b)).merkleRoot = b.merkleRoot := by
  have hb : Block.fromDict (Block.toDict b) = b := by
    unfold Block.fromDict Block.toDict Block.make
    cases b
    simp only at hroot hhash
    subst hroot
    simp [hhash]
  exact ⟨hb, by rw [hb], by rw [hb]⟩

/-- Witness for C7: a concrete constructed block round-trips. -/
theorem block_roundtrip_witness :
    Block.fromDict (Block.toDict (Block.make 1 3 [[(("a"), Json.int 1)]] ("p") ("v") [])) =
      Block.make 1 3 [[(("a"), Json.int 1)]] ("p") ("v") [] :=
  (block_roundtrip (Block.make 1 3 [[(("a"), Json.int 1)]] ("p") ("v") []) rfl rfl).1

/-- C5 (amended): `from_dict` never validates the stored `merkle_root`. Deserialization
always succeeds; `__post_init__` rebuilds the tree and silently overwrites
`merkle_root` with the rebuilt root, discarding the stored value. No malformed-block
report exists on this path. -/
theorem fromDict_overwrites_root (d : BlockDict) :
    (Block.fromDict d).merkleRoot = getRootHash sha256Hex d.transactions ∧
    (Block.fromDict d).transactions = d.transactions := by
  constructor
  · rfl
  · rfl

/-- Counterexample to C5 as stated: a dictionary whose stored root (64 'f's) cannot
match any rebuilt root of its empty transaction list deserializes without any error,
and the resulting block silently carries the rebuilt root instead of the stored one. -/
theorem fromDict_overwrites_root_counterexample :
    (Block.fromDict
      { blockIndex := 1, timestamp := 3, transactions := [],
        previousHash := ("p"), hash := ("h"), validator := ("v"),
        energyMetrics := [], merkleRoot := String.mk (List.replicate 64 (Char.ofNat 102)) }
      ).merkleRoot ≠
      (BlockDict.merkleRoot
        { blockIndex := 1, timestamp := 3, transactions := [],
          previousHash := ("p"), hash := ("h"), validator := ("v"),
          energyMetrics := [], merkleRoot := String.mk (List.replicate 64 (Char.ofNat 102)) }) := by
  decide

/-- `_validate_merkle_tree` succeeds exactly on a non-empty root that matches the
rebuilt root with matching leaf/transaction counts. -/
theorem validateMerkleTree_iff (b : Block) :
    validateMerkleTree b = true ↔
      (b.merkleRoot ≠ ("") ∧
       b.merkleRoot = getRootHash sha256Hex b.transactions ∧
       (getTransactionHashes b.transactions).length = b.transactions.length) := by
  unfold validateMerkleTree
  split_ifs with h1 h2 h3 <;> simp_all

/-- C1 (confirmed): `validate_block` returns true iff the validator is a delegate, the
validator is the current validator for `prev_index`, the timestamp beats
`prev_ts - sync_tolerance`, the index beats `prev_index`, the block is fresh
(`|now - timestamp| <= block_time`), Merkle integrity holds (non-empty root, rebuilt
root equal, transaction count equal to leaf count), and the power usage is within the
energy threshold. -/
theorem validateBlock_iff (st : DPoSState) (now : ℚ) (b : Block) (powerUsage : ℚ)
    (prevTimestamp : ℚ) (prevIndex : Int) (syncTolerance : ℚ) :
    validateBlock st now b powerUsage prevTimestamp prevIndex syncTolerance = true ↔
      (b.validator ∈ st.delegates ∧
       getCurrentValidator st now prevIndex = some b.validator ∧
       prevTimestamp - syncTolerance < b.timestamp ∧
       prevIndex < b.blockIndex ∧
       |now - b.timestamp| ≤ st.blockTime ∧
       (b.merkleRoot ≠ ("") ∧
        b.merkleRoot = getRootHash sha256Hex b.transactions ∧
        (getTransactionHashes b.transactions).length = b.transactions.length) ∧
       powerUsage ≤ st.energyThreshold) := by
  unfold validateBlock
  rw [← validateMerkleTree_iff b]
  split_ifs with h1 h2 h3 h4 h5 h6 h7 <;>
    simp_all [List.elem_iff, not_le, not_lt, le_of_lt]

unseal Rat.sub in
/-- C2 (confirmed): `get_current_validator(ref_index)` returns
`active[(ref_index + 1) % len(active)]`, where `active` is the list of live delegates
(all delegates when no metrics instance exists) sorted ascending by node id, and
`none` when the delegates list or the active list is empty. With delegates a, b, c all
live, the reference indices -1, 0, 1, 2 select a, b, c, a. -/
theorem getCurrentValidator_spec :
    (∀ (st : DPoSState) (now : ℚ) (refIndex : Int),
      getCurrentValidator st now refIndex =
        if st.delegates = [] then none
        else
          let active := pySorted pyStrLe (liveFilter st now)
          if active = [] then none
          else some (active.getD (((refIndex + 1) % (active.length : Int)).toNat) (""))) ∧
    getCurrentValidator dposABC 0 (-1) = some ("a") ∧
    getCurrentValidator dposABC 0 0 = some ("b") ∧
    getCurrentValidator dposABC 0 1 = some ("c") ∧
    getCurrentValidator dposABC 0 2 = some ("a") := by
  refine ⟨?_, by decide, by decide, by decide, by decide⟩
  intro st now refIndex
  unfold getCurrentValidator
  simp only [List.isEmpty_iff]

/-- One `adjust_block_time` call keeps the block time inside [1, 5]. -/
theorem adjustBlockTime_preserves (st : DPoSState) (load : ℚ)
    (h1 : 1 ≤ st.blockTime) (h5 : st.blockTime ≤ 5) :
    1 ≤ (adjustBlockTime st load).blockTime ∧ (adjustBlockTime st load).blockTime ≤ 5 := by
  have hhalf : (mkRat 1 2 : ℚ) = 1 / 2 := by norm_num [mkRat, Rat.normalize]
  unfold adjustBlockTime
  split_ifs <;> constructor <;> simp_all [hhalf, le_max_iff, max_le_iff, le_min_iff, min_le_iff] <;>
    linarith

/-- Any sequence of `adjust_block_time` calls preserves `1 <= block_time <= 5`. -/
theorem blockTime_invariant_aux :
    ∀ (loads : List ℚ) (st : DPoSState), 1 ≤ st.blockTime → st.blockTime ≤ 5 →
      1 ≤ (loads.foldl adjustBlockTime st).blockTime ∧
      (loads.foldl adjustBlockTime st).blockTime ≤ 5
  | [], st, h1, h5 => ⟨h1, h5⟩
  | load :: rest, st, h1, h5 => by
    obtain ⟨g1, g5⟩ := adjustBlockTime_preserves st load h1 h5
    simpa using blockTime_invariant_aux rest (adjustBlockTime st load) g1 g5

/-- C10 (confirmed): starting from a freshly initialized engine (block time 3), every
sequence of `adjust_block_time` calls keeps `block_time` within the closed interval
[1, 5], for every sequence of network loads. -/
theorem blockTime_invariant (maxValidators : Nat) (metrics : Option (String → Option ℚ))
    (loads : List ℚ) :
    1 ≤ (loads.foldl adjustBlockTime (DPoS.init maxValidators metrics)).blockTime ∧
    (loads.foldl adjustBlockTime (DPoS.init maxValidators metrics)).blockTime ≤ 5 :=
  blockTime_invariant_aux loads (DPoS.init maxValidators metrics) (by norm_num [DPoS.init])
    (by norm_num [DPoS.init])

/-- C8 (amended): `update_stake` on a present validator mutates the stake and forces a
delegate recomputation (the delegates immediately reflect the updated mapping and the
update time is stamped, regardless of the update interval). `remove_validator`,
however, only deletes the mapping entry: the delegates list and the update timestamp
are left untouched, so the delegates do not reflect the removal until some later
recomputation. -/
theorem dpos_mutators_delegates :
    (∀ (st : DPoSState) (addr : String) (ns now : ℚ),
        pyDictContains st.validators addr = true →
        (updateStake st addr ns now).1.delegates =
          computeDelegates (pyDictSet st.validators addr ns) st.maxValidators ∧
        (updateStake st addr ns now).1.lastDelegateUpdateTime = now ∧
        (updateStake st addr ns now).2 = true) ∧
    (∀ (st : DPoSState) (addr : String),
        (removeValidator st addr).1.delegates = st.delegates ∧
        (removeValidator st addr).1.lastDelegateUpdateTime = st.lastDelegateUpdateTime) := by
  constructor
  · intro st addr ns now h
    unfold updateStake updateDelegates
    simp [h]
  · intro st addr
    unfold removeValidator
    split_ifs <;> exact ⟨rfl, rfl⟩

/-- Witness for C8: updating a stake in a concrete roster immediately reorders the
delegates by the new stakes. -/
theorem dpos_mutators_delegates_witness :
    pyDictContains dposStaleDelegates.validators ("a") = true ∧
    (updateStake dposStaleDelegates ("a") 300 7).1.delegates =
      computeDelegates (pyDictSet dposStaleDelegates.validators ("a") 300)
        dposStaleDelegates.maxValidators ∧
    (updateStake dposStaleDelegates ("a") 300 7).1.delegates = [("a"), ("b")] :=
  ⟨by decide,
    (dpos_mutators_delegates.1 dposStaleDelegates ("a") 300 7 (by decide)).1,
    by decide⟩

/-- Counterexample to C8 as stated: removing the only validator succeeds and empties
the mapping, yet the delegates list still contains the removed id — it does not
reflect the new validator set. -/
theorem dpos_mutators_delegates_counterexample :
    (removeValidator dposSingleValidator ("a")).2 = true ∧
    (removeValidator dposSingleValidator ("a")).1.validators = [] ∧
    (removeValidator dposSingleValidator ("a")).1.delegates = [("a")] ∧
    (removeValidator dposSingleValidator ("a")).1.delegates ≠
      computeDelegates (removeValidator dposSingleValidator ("a")).1.validators
        dposSingleValidator.maxValidators := by
  refine ⟨by decide, by decide, by decide, by decide⟩

/-- C6: whenever `get_current_validator` returns `None` (no delegates, or no live
delegates), the proposer iteration does not yield cleanly: it raises an uncaught
`AttributeError` from `current_validator.strip()`. The chain and the pending pool are
untouched, but the exception escapes the loop body, contradicting the specified
LivenessError behavior ("proposer yields; no block is produced"). -/
theorem proposer_crashes_without_validator (st : DPoSState) (blocks : List Block)
    (nodeId : String) (healthOk : Bool) (pending : List Tx) (now : ℚ)
    (h : getCurrentValidator st now (prevIndexOf blocks) = none) :
    processTransactionsStep st blocks nodeId healthOk pending now =
      .error .attributeError := by
  unfold processTransactionsStep
  rw [h]

/-- Witness for C6: a freshly initialized engine has no delegates, and one proposer
pass raises AttributeError. -/
theorem proposer_crashes_without_validator_witness :
    getCurrentValidator (DPoS.init 21 none) 0 (prevIndexOf []) = none ∧
    processTransactionsStep (DPoS.init 21 none) [] ("node_1") true [] 0 =
      .error .attributeError :=
  ⟨by decide,
    proposer_crashes_without_validator (DPoS.init 21 none) [] ("node_1") true [] 0 (by decide)⟩

theorem jsonSize_pos : ∀ v : Json, 1 ≤ jsonSize v
  | .null => le_refl 1
  | .bool _ => le_refl 1
  | .int _ => le_refl 1
  | .float _ => le_refl 1
  | .str _ => le_refl 1
  | .arr _ => by simp [jsonSize]
  | .obj _ => by simp [jsonSize]

theorem jsonSize_le_of_mem : ∀ (xs : List Json) (x : Json), x ∈ xs → jsonSize x ≤ jsonListSize xs
  | [], x, h => by simp at h
  | y :: rest, x, h => by
    rcases List.mem_cons.mp h with h | h
    · subst h
      simp [jsonListSize]
    · have := jsonSize_le_of_mem rest x h
      simp only [jsonListSize]
      omega

theorem jsonSize_le_of_mem_kvs :
    ∀ (kvs : List (String × Json)) (kv : String × Json), kv ∈ kvs →
      jsonSize kv.2 ≤ jsonKVsSize kvs
  | [], kv, h => by simp at h
  | e :: rest, kv, h => by
    rcases List.mem_cons.mp h with h | h
    · subst h
      simp [jsonKVsSize]
    · have := jsonSize_le_of_mem_kvs rest kv h
      simp only [jsonKVsSize]
      omega

/-- Inserting into a key-sorted list commutes with a key-preserving map. -/
theorem insertSorted_keyLe_map {β : Type} (g : String × Json → β) (a : String × Json) :
    ∀ l : List (String × Json),
      insertSorted keyLe (a.1, g a) (l.map (fun kv => (kv.1, g kv))) =
        (insertSorted keyLe a l).map (fun kv => (kv.1, g kv))
  | [] => rfl
  | b :: rest => by
    have hle : keyLe (a.1, g a) (b.1, g b) = keyLe a b := rfl
    by_cases h : keyLe a b = true
    · simp [insertSorted, hle, h]
    · have h' : keyLe a b = false := by simpa using h
      simp [insertSorted, hle, h', insertSorted_keyLe_map g a rest]

/-- Python `sorted` by key commutes with a key-preserving map. -/
theorem pySorted_keyLe_map {β : Type} (g : String × Json → β) :
    ∀ l : List (String × Json),
      pySorted keyLe (l.map (fun kv => (kv.1, g kv))) =
        (pySorted keyLe l).map (fun kv => (kv.1, g kv))
  | [] => rfl
  | a :: rest => by
    simp only [List.map_cons, pySorted, pySorted_keyLe_map g rest]
    exact insertSorted_keyLe_map g a (pySorted keyLe rest)

theorem emitJsonKVs_eq_map (isep ksep : String) :
    ∀ kvs : List (String × Json),
      emitJsonKVs isep ksep kvs =
        kvs.map (fun kv => pyStrLit kv.1 ++ ksep ++ emitJson isep ksep kv.2)
  | [] => rfl
  | kv :: rest => by simp [emitJsonKVs, emitJsonKVs_eq_map isep ksep rest]

theorem sortJsonKVs_eq_map :
    ∀ kvs : List (String × Json),
      sortJsonKVs kvs = kvs.map (fun kv => (kv.1, sortJson kv.2))
  | [] => rfl
  | kv :: rest => by simp [sortJsonKVs, sortJsonKVs_eq_map rest]

theorem pyDumpsList_congr :
    ∀ xs : List Json, (∀ x ∈ xs, pyDumps x = emitJson (", ") (": ") (sortJson x)) →
      pyDumpsList xs = emitJsonList (", ") (": ") (sortJsonList xs)
  | [], _ => rfl
  | x :: rest, h => by
    simp only [pyDumpsList, emitJsonList, sortJsonList]
    rw [h x (by simp), pyDumpsList_congr rest (fun y hy => h y (by simp [hy]))]

theorem pyDumpsKVs_congr :
    ∀ kvs : List (String × Json),
      (∀ kv ∈ kvs, pyDumps kv.2 = emitJson (", ") (": ") (sortJson kv.2)) →
      pyDumpsKVs kvs = kvs.map (fun kv => (kv.1, emitJson (", ") (": ") (sortJson kv.2)))
  | [], _ => rfl
  | kv :: rest, h => by
    simp only [pyDumpsKVs, List.map_cons]
    rw [h kv (by simp), pyDumpsKVs_congr rest (fun e he => h e (by simp [he]))]

/-- Key lemma for C4: `json.dumps(v, sort_keys=True)` equals the spec's canonical
serializer (keys sorted at every nesting level) run with CPython's default separators
`", "` and `": "`. -/
theorem pyDumps_eq_specSerialize_aux :
    ∀ (n : Nat) (v : Json), jsonSize v ≤ n → pyDumps v = specSerialize (", ") (": ") v := by
  intro n
  induction n with
  | zero =>
    intro v h
    have := jsonSize_pos v
    omega
  | succ n ih =>
    intro v h
    cases v with
    | null => rfl
    | bool b => rfl
    | int m => rfl
    | float q => rfl
    | str s => rfl
    | arr xs =>
      have hsz : jsonListSize xs ≤ n := by
        simp only [jsonSize] at h
        omega
      have hpt : ∀ x ∈ xs, pyDumps x = emitJson (", ") (": ") (sortJson x) := by
        intro x hx
        have h1 : jsonSize x ≤ n := le_trans (jsonSize_le_of_mem xs x hx) hsz
        exact (ih x h1).trans rfl
      show _ = emitJson (", ") (": ") (sortJson (Json.arr xs))
      simp only [pyDumps, sortJson, emitJson]
      rw [pyDumpsList_congr xs hpt]
    | obj kvs =>
      have hsz : jsonKVsSize kvs ≤ n := by
        simp only [jsonSize] at h
        omega
      have hpt : ∀ kv ∈ kvs, pyDumps kv.2 = emitJson (", ") (": ") (sortJson kv.2) := by
        intro kv hkv
        have h1 : jsonSize kv.2 ≤ n := le_trans (jsonSize_le_of_mem_kvs kvs kv hkv) hsz
        exact (ih kv.2 h1).trans rfl
      show _ = emitJson (", ") (": ") (sortJson (Json.obj kvs))
      simp only [pyDumps, sortJson, emitJson]
      rw [pyDumpsKVs_congr kvs hpt, emitJsonKVs_eq_map, sortJsonKVs_eq_map,
        pySorted_keyLe_map (fun kv => emitJson (", ") (": ") (sortJson kv.2)) kvs,
        pySorted_keyLe_map (fun kv => sortJson kv.2) kvs, List.map_map, List.map_map]
      rfl

/-- C4 (amended): every hashed serialization sorts object keys lexicographically at
every nesting level, but emits CPython's default separators (a space after each `','`
and `':'`); the SHA-256 hex digest is then taken over that spaced form. -/
theorem canonical_json_spec :
    (∀ v : Json, pyDumps v = specSerialize (", ") (": ") v) ∧
    (∀ tx : Tx, leafHashH sha256Hex tx = sha256Hex (pyDumps (Json.obj tx))) ∧
    (∀ (i : Int) (ts : ℚ) (mr ph va : String) (em : List (String × ℚ)),
      calculateHash i ts mr ph va em =
        sha256Hex (pyDumps (blockHashJson i ts mr ph va em))) :=
  ⟨fun v => pyDumps_eq_specSerialize_aux (jsonSize v) v (le_refl _),
   fun _ => rfl, fun _ _ _ _ _ _ => rfl⟩

/-- Counterexample to C4 as stated: the canonical form of the spec has no whitespace,
but `json.dumps(..., sort_keys=True)` emits `", "` and `": "`; the hash is computed
over the spaced form. -/
theorem canonical_json_counterexample :
    pyDumps (Json.obj [(("b"), Json.int 2), (("a"), Json.int 1)]) ≠
      specSerialize (",") (":") (Json.obj [(("b"), Json.int 2), (("a"), Json.int 1)]) ∧
    pyDumps (Json.obj [(("b"), Json.int 2), (("a"), Json.int 1)]) =
      ("\x7b\"a\": 1, \"b\": 2\x7d") ∧
    specSerialize (",") (":") (Json.obj [(("b"), Json.int 2), (("a"), Json.int 1)]) =
      ("\x7b\"a\":1,\"b\":2\x7d") ∧
    leafHashH sha256Hex [(("b"), Json.int 2), (("a"), Json.int 1)] =
      sha256Hex ("\x7b\"a\": 1, \"b\": 2\x7d") := by
  refine ⟨by decide, by decide, by decide, by decide⟩
